import Mathlib

/-
Shallow embedding of `src/student_management_system.py` (class
`StudentManagementSystem`).  The in-memory collection `self.students` is a
`List Student`; each mutating operation returns the new collection together
with its Python return value (`success : Bool`) and a flag recording whether
`save_students` was invoked.  GUI dialogs (the clear-all confirmation, the
CSV save-file dialog) are modelled as explicit parameters, as §4.2/§9 of the
design treat them: collaborator-supplied inputs.
-/

namespace SMS

/-- One student record, as built by `Student.__init__`. -/
structure Student where
  id : String
  name : String
  age : Int
  grade : String
deriving DecidableEq, Repr

/-- Helper for `pyParseInt`: Python `int()` on a list of characters that must
be all decimal digits and non-empty. -/
def digitsToNat (ds : List Char) : Option Nat :=
  if ds = [] then none
  else if ds.all Char.isDigit then
    some (ds.foldl (fun n c => 10 * n + (c.toNat - 48)) 0)
  else none

/-- Surrounding whitespace stripping performed by Python `int()` before
parsing the digits. -/
def pyStrip (s : String) : List Char :=
  ((s.data.dropWhile Char.isWhitespace).reverse.dropWhile Char.isWhitespace).reverse

/-- Model of Python `int(s)` on a string: surrounding whitespace is stripped,
an optional sign is allowed, and the rest must be decimal digits. -/
def pyParseInt (s : String) : Option Int :=
  match pyStrip s with
  | [] => none
  | '+' :: ds => (digitsToNat ds).map (fun n => (n : Int))
  | '-' :: ds => (digitsToNat ds).map (fun n => -(n : Int))
  | ds => (digitsToNat ds).map (fun n => (n : Int))

/-- The `try: age = int(age); if age <= 0: raise ValueError` block shared by
`add_student` and `update_student`: parse the age text and reject
non-positive results. -/
def parsePositiveAge (age : String) : Option Int :=
  match pyParseInt age with
  | some n => if n ≤ 0 then none else some n
  | none => none

/-- Model of Python `str.lower()` (ASCII case folding, as the record data in
this repository is ASCII). -/
def pyLower (s : String) : String :=
  ⟨s.data.map Char.toLower⟩

/-- Model of Python `sub in s`: substring containment. -/
def strContains (s sub : String) : Bool :=
  decide (sub.data <:+: s.data)

/-- Result of a mutating operation: the Python return value, the new
`self.students`, and whether `save_students()` ran. -/
structure OpResult where
  success : Bool
  students : List Student
  saved : Bool
deriving DecidableEq, Repr

/-- Model of `StudentManagementSystem.add_student(id, name, age, grade)`. -/
def add_student (id name age grade : String) (students : List Student) : OpResult :=
  if id = "" ∨ name = "" ∨ grade = "" then
    ⟨false, students, false⟩
  else if students.any (fun s => s.id == id) then
    ⟨false, students, false⟩
  else
    match parsePositiveAge age with
    | none => ⟨false, students, false⟩
    | some n => ⟨true, students ++ [⟨id, name, n, grade⟩], true⟩

/-- Comparison key used by `view_students` for a given `sort_by` string:
`lambda s: s.id`, `lambda s: s.name.lower()`, `lambda s: s.age`,
`lambda s: s.grade.lower()`.  Python `list.sort` is a stable sort on the
key; we embed it as a stable merge sort on the induced `≤`. -/
def keyLe (key : String) (a b : Student) : Bool :=
  if key = "id" then decide (a.id ≤ b.id)
  else if key = "name" then decide (pyLower a.name ≤ pyLower b.name)
  else if key = "age" then decide (a.age ≤ b.age)
  else decide (pyLower a.grade ≤ pyLower b.grade)

/-- Two records tie under a sort key when their key values coincide (equal
ids, case-folded names, ages, or case-folded grades). -/
def keyEq (key : String) (a b : Student) : Bool :=
  if key = "id" then a.id == b.id
  else if key = "name" then pyLower a.name == pyLower b.name
  else if key = "age" then a.age == b.age
  else pyLower a.grade == pyLower b.grade

/-- Model of `StudentManagementSystem.view_students(sort_by=None)`: when `sort_by` is
one of the four recognised keys, sort `self.students` in place (stably) and
return it; otherwise return the stored list unchanged. -/
def view_students (sort_by : Option String) (students : List Student) : List Student :=
  match sort_by with
  | none => students
  | some key =>
    if key = "id" ∨ key = "name" ∨ key = "age" ∨ key = "grade" then
      students.mergeSort (keyLe key)
    else
      students

/-- The filter predicate of `search_students`: `query in s.id.lower() or
query in s.name.lower()`, for the already-lowercased query. -/
def matchesQuery (q : String) (s : Student) : Bool :=
  strContains (pyLower s.id) q || strContains (pyLower s.name) q

/-- Model of `StudentManagementSystem.search_students(query)`: lowercase the query and
return the records whose id or name contains it; `self.students` itself is
not touched. -/
def search_students (query : String) (students : List Student) : List Student :=
  students.filter (matchesQuery (pyLower query))

/-- The `if name: s.name = name` assignment inside `update_student`. -/
def applyName (s : Student) (name : Option String) : Student :=
  match name with
  | some n => if n = "" then s else { s with name := n }
  | none => s

/-- The `if grade: s.grade = grade` assignment inside `update_student`. -/
def applyGrade (s : Student) (grade : Option String) : Student :=
  match grade with
  | some g => if g = "" then s else { s with grade := g }
  | none => s

/-- Outcome of the `if age:` block of `update_student`: the argument is
falsy and the block is skipped, or it parses to a positive integer `n`, or
the `except ValueError` branch runs. -/
inductive AgeCheck where
  | skip
  | ok (n : Int)
  | fail
deriving DecidableEq, Repr

/-- Evaluate the `if age:` block of `update_student` on the age argument. -/
def checkAge : Option String → AgeCheck
  | none => .skip
  | some a =>
    if a = "" then .skip
    else
      match parsePositiveAge a with
      | some n => .ok n
      | none => .fail

/-- Model of `StudentManagementSystem.update_student(id, name=None, age=None,
grade=None)`: walk the list for the first record whose id matches; apply the
name first, then validate the age (returning `False` with no save if it is
supplied and invalid — the name assignment already happened), then the
grade; save and return `True`.  If no record matches, return `False`. -/
def update_student (id : String) (name age grade : Option String) :
    List Student → OpResult
  | [] => ⟨false, [], false⟩
  | s :: rest =>
    if s.id = id then
      let s₁ := applyName s name
      match checkAge age with
      | .fail => ⟨false, s₁ :: rest, false⟩
      | .skip => ⟨true, applyGrade s₁ grade :: rest, true⟩
      | .ok n => ⟨true, applyGrade { s₁ with age := n } grade :: rest, true⟩
    else
      let r := update_student id name age grade rest
      ⟨r.success, s :: r.students, r.saved⟩

/-- Model of `StudentManagementSystem.delete_student(id)`: remove the first record
whose id matches and save; return `False` if none matches. -/
def delete_student (id : String) : List Student → OpResult
  | [] => ⟨false, [], false⟩
  | s :: rest =>
    if s.id = id then ⟨true, rest, true⟩
    else
      let r := delete_student id rest
      ⟨r.success, s :: r.students, r.saved⟩

/-- Model of `StudentManagementSystem.clear_all_students()`, with the
`messagebox.askyesno` confirmation dialog supplied as a parameter. -/
def clear_all_students (confirmed : Bool) (students : List Student) : OpResult :=
  if confirmed then ⟨true, [], true⟩
  else ⟨false, students, false⟩

/-- The CSV row written for one student: `[s.id, s.name, s.age, s.grade]`
(the integer age is rendered by `str`). -/
def csvRow (s : Student) : List String :=
  [s.id, s.name, toString s.age, s.grade]

/-- Observable outcome of `export_to_csv`: whether the empty-collection
error dialog was shown, the rows written to the destination file (`none`
when no file is written), and the sequence of percentage values passed to
`progress_callback`. -/
structure ExportResult where
  errorShown : Bool
  rows : Option (List (List String))
  callbacks : List ℚ
deriving DecidableEq, Repr

/-- Model of `StudentManagementSystem.export_to_csv(progress_callback)`, with the
result of the `filedialog.asksaveasfilename` dialog supplied as a parameter
(`""` when the user cancels, as in Tk).  On an empty collection an error is
shown and nothing is written; with a chosen path, a header row and one row
per record are written, and after the `i`-th row (1-based) the callback
receives `(i / N) * 100`. -/
def export_to_csv (students : List Student) (file_path : String) : ExportResult :=
  if students = [] then ⟨true, none, []⟩
  else if file_path = "" then ⟨false, none, []⟩
  else
    ⟨false,
     some (["ID", "Name", "Age", "Grade"] :: students.map csvRow),
     (List.range students.length).map
       (fun (i : ℕ) => ((i : ℚ) + 1) / (students.length : ℚ) * 100)⟩

/-- JSON values, at the level of the parsed tree `json.load` / `json.dump`
exchange with the backing file. -/
inductive Json where
  | null
  | bool (b : Bool)
  | num (n : Int)
  | str (s : String)
  | arr (xs : List Json)
  | obj (fields : List (String × Json))

/-- Model of `Student.to_dict`: the id/name/age/grade mapping of one record. -/
def Student.to_dict (s : Student) : Json :=
  .obj [("id", .str s.id), ("name", .str s.name),
        ("age", .num s.age), ("grade", .str s.grade)]

/-- Model of `StudentManagementSystem.save_students`: the JSON tree written to the
backing file, `[s.to_dict() for s in self.students]`. -/
def save_students (students : List Student) : Json :=
  .arr (students.map Student.to_dict)

/-- Model of `Student(**s)` applied to one parsed JSON object: the four keyword
fields must be present (and of the record types the store persists, per §6);
anything else raises and is modelled as `none`. -/
def studentOfJson : Json → Option Student
  | .obj fields =>
    match fields.lookup "id", fields.lookup "name",
          fields.lookup "age", fields.lookup "grade" with
    | some (.str i), some (.str n), some (.num a), some (.str g) =>
      if fields.length = 4 then some ⟨i, n, a, g⟩ else none
    | _, _, _, _ => none
  | _ => none

/-- Model of `StudentManagementSystem.load_students` on an existing, parsable backing
file: `self.students = [Student(**s) for s in data]`. -/
def load_students (data : Json) : Option (List Student) :=
  match data with
  | .arr xs => xs.mapM studentOfJson
  | _ => none

/-- One mutating Record Store operation, for stating the collection
invariant over operation sequences. -/
inductive Op where
  | add (id name age grade : String)
  | update (id : String) (name age grade : Option String)
  | delete (id : String)

/-- Apply one operation to the collection and keep the resulting
`self.students`. -/
def applyOp (students : List Student) : Op → List Student
  | .add id name age grade => (add_student id name age grade students).students
  | .update id name age grade => (update_student id name age grade students).students
  | .delete id => (delete_student id students).students

/-- The collection invariant of §3: ids pairwise distinct, every id
non-empty, every age strictly positive. -/
def ValidColl (students : List Student) : Prop :=
  List.Pairwise (fun a b => a.id ≠ b.id) students ∧
    ∀ s ∈ students, s.id ≠ "" ∧ 0 < s.age

instance : DecidablePred ValidColl := fun _ =>
  inferInstanceAs (Decidable (_ ∧ _))

theorem strContains_empty (s : String) : strContains s "" = true :=
  decide_eq_true List.nil_infix

/-- Claim C9: searching with the empty query returns the whole collection in
stored order, which is exactly what viewing without a sort key returns. -/
theorem claim_C9 (l : List Student) :
    search_students "" l = l ∧ search_students "" l = view_students none l := by
  have h : search_students "" l = l := by
    apply List.filter_eq_self.mpr
    intro s _
    have h0 : pyLower "" = "" := rfl
    show matchesQuery (pyLower "") s = true
    rw [h0]
    simp [matchesQuery, strContains_empty]
  exact ⟨h, h⟩

/-- Claim C10: with the confirmation dialog declined, clear-all returns
failure, leaves the collection unchanged and does not save; with it
accepted, the collection is emptied and saved. -/
theorem claim_C10 (l : List Student) :
    clear_all_students false l = ⟨false, l, false⟩ ∧
    clear_all_students true l = ⟨true, [], true⟩ :=
  ⟨rfl, rfl⟩

/-- Claim C6: search returns exactly the subsequence of records whose id or
name contains the query as a case-insensitive substring, in stored order
(the result is a sublist of the stored collection, which is not mutated). -/
theorem claim_C6 (q : String) (l : List Student) :
    (search_students q l).Sublist l ∧
    ∀ s, s ∈ search_students q l ↔
      s ∈ l ∧ ((pyLower q).data <:+: (pyLower s.id).data ∨
               (pyLower q).data <:+: (pyLower s.name).data) := by
  refine ⟨List.filter_sublist l, fun s => ?_⟩
  simp [search_students, matchesQuery, strContains, List.mem_filter]

/-- Claim C2: add fails exactly when a required field is empty, the id is a
duplicate, or the age text does not parse as a strictly positive integer;
failure changes nothing and does not save; success appends the new record
with the parsed age at the end and saves. -/
theorem claim_C2 (id name age grade : String) (l : List Student) :
    ((add_student id name age grade l).success = false ↔
      id = "" ∨ name = "" ∨ grade = "" ∨ (∃ s ∈ l, s.id = id) ∨
        parsePositiveAge age = none) ∧
    ((add_student id name age grade l).success = false →
      (add_student id name age grade l).students = l ∧
      (add_student id name age grade l).saved = false) ∧
    ((add_student id name age grade l).success = true →
      ∃ n, parsePositiveAge age = some n ∧
        (add_student id name age grade l).students = l ++ [⟨id, name, n, grade⟩] ∧
        (add_student id name age grade l).saved = true) := by
  unfold add_student
  split_ifs with h1 h2
  · refine ⟨⟨fun _ => ?_, fun _ => rfl⟩, fun _ => ⟨rfl, rfl⟩,
      fun hs => by simp at hs⟩
    rcases h1 with h | h | h
    · exact Or.inl h
    · exact Or.inr (Or.inl h)
    · exact Or.inr (Or.inr (Or.inl h))
  · have hdup : ∃ s ∈ l, s.id = id := by
      simpa using h2
    exact ⟨⟨fun _ => Or.inr (Or.inr (Or.inr (Or.inl hdup))), fun _ => rfl⟩,
      fun _ => ⟨rfl, rfl⟩, fun hs => by simp at hs⟩
  · have hdup : ¬∃ s ∈ l, s.id = id := by
      simpa using h2
    cases hp : parsePositiveAge age with
    | none =>
      exact ⟨⟨fun _ => Or.inr (Or.inr (Or.inr (Or.inr rfl))), fun _ => rfl⟩,
        fun _ => ⟨rfl, rfl⟩, fun hs => by simp at hs⟩
    | some n =>
      refine ⟨⟨fun hs => by simp at hs, fun hd => ?_⟩,
        fun hs => by simp at hs,
        fun _ => ⟨n, rfl, rfl, rfl⟩⟩
      rcases hd with h | h | h | h | h
      · exact absurd (Or.inl h) h1
      · exact absurd (Or.inr (Or.inl h)) h1
      · exact absurd (Or.inr (Or.inr h)) h1
      · exact absurd h hdup
      · exact Option.noConfusion h

/-- Witness for C2 at a concrete input: adding with a non-numeric age fails
and changes nothing. -/
theorem claim_C2_witness :
    (add_student "s1" "Alice" "abc" "A" []).students = [] ∧
    (add_student "s1" "Alice" "abc" "A" []).saved = false :=
  (claim_C2 "s1" "Alice" "abc" "A" []).2.1 (by decide)

/-- Claim C4: deleting an absent id fails and changes nothing; deleting a
present id removes exactly the first matching record, keeps every other
record in its relative order, decreases the count by one, and saves. -/
theorem claim_C4 (id : String) (l : List Student) :
    ((∀ s ∈ l, s.id ≠ id) → delete_student id l = ⟨false, l, false⟩) ∧
    ((∃ s ∈ l, s.id = id) →
      ∃ l₁ s l₂, l = l₁ ++ s :: l₂ ∧ (∀ t ∈ l₁, t.id ≠ id) ∧ s.id = id ∧
        delete_student id l = ⟨true, l₁ ++ l₂, true⟩ ∧
        (delete_student id l).students.length + 1 = l.length) := by
  induction l with
  | nil =>
    exact ⟨fun _ => rfl, fun h => by simp at h⟩
  | cons s rest ih =>
    by_cases hs : s.id = id
    · refine ⟨fun habs => absurd hs (habs s (List.mem_cons_self s rest)), fun _ => ?_⟩
      refine ⟨[], s, rest, rfl, by simp, hs, ?_, ?_⟩
      · simp [delete_student, hs]
      · simp [delete_student, hs]
    · constructor
      · intro habs
        have h1 : delete_student id rest = ⟨false, rest, false⟩ :=
          ih.1 (fun t ht => habs t (List.mem_cons_of_mem s ht))
        simp [delete_student, hs, h1]
      · intro hex
        have hex' : ∃ t ∈ rest, t.id = id := by
          rcases hex with ⟨t, ht, hid⟩
          rcases List.mem_cons.mp ht with h | h
          · exact absurd (h ▸ hid) hs
          · exact ⟨t, h, hid⟩
        obtain ⟨l₁, t, l₂, heq, hnone, hid, hdel, hlen⟩ := ih.2 hex'
        refine ⟨s :: l₁, t, l₂, by rw [heq]; rfl, ?_, hid, ?_, ?_⟩
        · intro u hu
          rcases List.mem_cons.mp hu with h | h
          · exact h ▸ hs
          · exact hnone u h
        · simp [delete_student, hs, hdel]
        · simp only [delete_student, hs, if_neg hs]
          simp [hdel] at hlen ⊢
          omega

/-- Witness for C4 at concrete inputs: deleting an absent id is a no-op
failure, and deleting a present id removes that record and saves. -/
theorem claim_C4_witness :
    delete_student "zz" [⟨"s1", "Al", 7, "A"⟩] =
      ⟨false, [⟨"s1", "Al", 7, "A"⟩], false⟩ ∧
    (∃ l₁ s l₂, ([⟨"s1", "Al", 7, "A"⟩] : List Student) = l₁ ++ s :: l₂ ∧
      (∀ t ∈ l₁, t.id ≠ "s1") ∧ s.id = "s1" ∧
      delete_student "s1" [⟨"s1", "Al", 7, "A"⟩] = ⟨true, l₁ ++ l₂, true⟩ ∧
      (delete_student "s1" [⟨"s1", "Al", 7, "A"⟩]).students.length + 1 = 1) :=
  ⟨(claim_C4 "zz" [⟨"s1", "Al", 7, "A"⟩]).1 (by decide),
   (claim_C4 "s1" [⟨"s1", "Al", 7, "A"⟩]).2 (by decide)⟩

theorem studentOfJson_to_dict (s : Student) :
    studentOfJson (Student.to_dict s) = some s := rfl

/-- Claim C8: saving the collection as the backing JSON document and loading
that document back reproduces an equal collection, record for record and in
order. -/
theorem claim_C8 (l : List Student) :
    load_students (save_students l) = some l := by
  have h : ∀ l : List Student,
      (l.map Student.to_dict).mapM studentOfJson = some l := by
    intro l
    induction l with
    | nil => rfl
    | cons s rest ih =>
      rw [List.map_cons, List.mapM_cons, studentOfJson_to_dict, ih]
      rfl
  exact h l

theorem applyName_id (s : Student) (name : Option String) :
    (applyName s name).id = s.id := by
  cases name with
  | none => rfl
  | some n => by_cases h : n = "" <;> simp [applyName, h]

theorem applyName_age (s : Student) (name : Option String) :
    (applyName s name).age = s.age := by
  cases name with
  | none => rfl
  | some n => by_cases h : n = "" <;> simp [applyName, h]

theorem applyName_grade (s : Student) (name : Option String) :
    (applyName s name).grade = s.grade := by
  cases name with
  | none => rfl
  | some n => by_cases h : n = "" <;> simp [applyName, h]

theorem checkAge_fail_of (a : String) (ha : a ≠ "")
    (hp : parsePositiveAge a = none) : checkAge (some a) = .fail := by
  simp [checkAge, ha, hp]

/-- Counterexample to C3 as stated: on `[("s1","Old",5,"A")]`, updating
`"s1"` with name `"New"` and age text `"abc"` fails the age validation, yet
the stored collection has changed (the name was assigned before the age
check ran). -/
theorem claim_C3_counterexample :
    (update_student "s1" (some "New") (some "abc") none
      [⟨"s1", "Old", 5, "A"⟩]).success = false ∧
    (update_student "s1" (some "New") (some "abc") none
      [⟨"s1", "Old", 5, "A"⟩]).students ≠ [⟨"s1", "Old", 5, "A"⟩] := by
  decide

/-- Claim C3 as amended: when the record exists and a supplied non-empty age
text fails positive-integer validation, update fails and does not save, and
every record's id, age and grade are unchanged — but a simultaneously
supplied non-empty name has already been applied to the first matching
record before the failure. -/
theorem claim_C3_amended (id : String) (name grade : Option String)
    (a : String) (l : List Student) (ha : a ≠ "")
    (hp : parsePositiveAge a = none) (hex : ∃ s ∈ l, s.id = id) :
    (update_student id name (some a) grade l).success = false ∧
    (update_student id name (some a) grade l).saved = false ∧
    (update_student id name (some a) grade l).students.map
        (fun t => (t.id, t.age, t.grade)) =
      l.map (fun t => (t.id, t.age, t.grade)) ∧
    ∃ l₁ s l₂, l = l₁ ++ s :: l₂ ∧ (∀ t ∈ l₁, t.id ≠ id) ∧ s.id = id ∧
      (update_student id name (some a) grade l).students =
        l₁ ++ applyName s name :: l₂ := by
  have hfail : checkAge (some a) = .fail := checkAge_fail_of a ha hp
  induction l with
  | nil => simp at hex
  | cons s rest ih =>
    by_cases hs : s.id = id
    · have hu : update_student id name (some a) grade (s :: rest) =
          ⟨false, applyName s name :: rest, false⟩ := by
        simp [update_student, hs, hfail]
      refine ⟨by rw [hu], by rw [hu], ?_,
        [], s, rest, rfl, by simp, hs, by rw [hu]; rfl⟩
      rw [hu]
      simp [applyName_id, applyName_age, applyName_grade]
    · have hex' : ∃ t ∈ rest, t.id = id := by
        rcases hex with ⟨t, ht, hid⟩
        rcases List.mem_cons.mp ht with h | h
        · exact absurd (h ▸ hid) hs
        · exact ⟨t, h, hid⟩
      obtain ⟨h1, h2, h3, l₁, t, l₂, heq, hnone, hid, hres⟩ := ih hex'
      have hu : update_student id name (some a) grade (s :: rest) =
          ⟨(update_student id name (some a) grade rest).success,
           s :: (update_student id name (some a) grade rest).students,
           (update_student id name (some a) grade rest).saved⟩ := by
        simp [update_student, hs]
      refine ⟨by rw [hu]; exact h1, by rw [hu]; exact h2, ?_,
        s :: l₁, t, l₂, by rw [heq]; rfl, ?_, hid, ?_⟩
      · rw [hu, List.map_cons, List.map_cons, h3]
      · intro u hu'
        rcases List.mem_cons.mp hu' with h | h
        · exact h ▸ hs
        · exact hnone u h
      · rw [hu, hres]
        rfl

/-- Witness for the amended C3 at a concrete input: the failing update
returns failure and does not save. -/
theorem claim_C3_witness :
    (update_student "s1" (some "New") (some "abc") none
      [⟨"s1", "Old", 5, "A"⟩]).success = false ∧
    (update_student "s1" (some "New") (some "abc") none
      [⟨"s1", "Old", 5, "A"⟩]).saved = false :=
  ⟨(claim_C3_amended "s1" (some "New") none "abc" [⟨"s1", "Old", 5, "A"⟩]
      (by decide) (by decide) (by decide)).1,
   (claim_C3_amended "s1" (some "New") none "abc" [⟨"s1", "Old", 5, "A"⟩]
      (by decide) (by decide) (by decide)).2.1⟩

theorem applyGrade_id (s : Student) (grade : Option String) :
    (applyGrade s grade).id = s.id := by
  cases grade with
  | none => rfl
  | some g => by_cases h : g = "" <;> simp [applyGrade, h]

theorem applyGrade_age (s : Student) (grade : Option String) :
    (applyGrade s grade).age = s.age := by
  cases grade with
  | none => rfl
  | some g => by_cases h : g = "" <;> simp [applyGrade, h]

theorem parsePositiveAge_pos {a : String} {n : Int}
    (h : parsePositiveAge a = some n) : 0 < n := by
  unfold parsePositiveAge at h
  cases hp : pyParseInt a with
  | none => rw [hp] at h; exact absurd h (by simp)
  | some m =>
    rw [hp] at h
    have h' : (if m ≤ 0 then (none : Option Int) else some m) = some n := h
    split at h'
    · exact absurd h' (by simp)
    · rename_i hm
      injection h' with h'
      omega

theorem checkAge_ok_pos {age : Option String} {n : Int}
    (h : checkAge age = .ok n) : 0 < n := by
  cases age with
  | none => simp [checkAge] at h
  | some a =>
    have h' : (if a = "" then AgeCheck.skip
        else match parsePositiveAge a with
          | some n => AgeCheck.ok n
          | none => AgeCheck.fail) = .ok n := h
    split at h'
    · exact absurd h' (by simp)
    · cases hp : parsePositiveAge a with
      | none => rw [hp] at h'; exact absurd h' (by simp)
      | some m =>
        rw [hp] at h'
        have h'' : AgeCheck.ok m = AgeCheck.ok n := h'
        injection h'' with h''
        exact h'' ▸ parsePositiveAge_pos hp

theorem add_student_valid (id name age grade : String) (l : List Student)
    (h : ValidColl l) : ValidColl (add_student id name age grade l).students := by
  unfold add_student
  split_ifs with h1 h2
  · exact h
  · exact h
  · cases hp : parsePositiveAge age with
    | none => exact h
    | some n =>
      obtain ⟨hpw, hmem⟩ := h
      have hnd : ∀ s ∈ l, s.id ≠ id := by simpa using h2
      constructor
      · rw [List.pairwise_append]
        refine ⟨hpw, by simp, ?_⟩
        intro x hx y hy
        simp only [List.mem_singleton] at hy
        subst hy
        exact hnd x hx
      · intro s hs
        rcases List.mem_append.mp hs with hl | hr
        · exact hmem s hl
        · simp only [List.mem_singleton] at hr
          subst hr
          exact ⟨fun he => h1 (Or.inl he), parsePositiveAge_pos hp⟩

theorem update_students_shape (id : String) (name age grade : Option String)
    (l : List Student) :
    (update_student id name age grade l).students.map Student.id =
      l.map Student.id ∧
    ∀ t ∈ (update_student id name age grade l).students,
      ∃ t₀ ∈ l, t.id = t₀.id ∧
        (t.age = t₀.age ∨ ∃ n, checkAge age = .ok n ∧ t.age = n) := by
  induction l with
  | nil => exact ⟨rfl, by simp [update_student]⟩
  | cons s rest ih =>
    by_cases hs : s.id = id
    · cases hc : checkAge age with
      | fail =>
        have hu : (update_student id name age grade (s :: rest)).students =
            applyName s name :: rest := by
          simp [update_student, hs, hc]
        rw [hu]
        refine ⟨by simp [applyName_id], ?_⟩
        intro t ht
        rcases List.mem_cons.mp ht with h | h
        · exact ⟨s, List.mem_cons_self s rest,
            by rw [h, applyName_id], Or.inl (by rw [h, applyName_age])⟩
        · exact ⟨t, List.mem_cons_of_mem s h, rfl, Or.inl rfl⟩
      | skip =>
        have hu : (update_student id name age grade (s :: rest)).students =
            applyGrade (applyName s name) grade :: rest := by
          simp [update_student, hs, hc]
        rw [hu]
        refine ⟨by simp [applyGrade_id, applyName_id], ?_⟩
        intro t ht
        rcases List.mem_cons.mp ht with h | h
        · refine ⟨s, List.mem_cons_self s rest, ?_, Or.inl ?_⟩
          · rw [h, applyGrade_id, applyName_id]
          · rw [h, applyGrade_age, applyName_age]
        · exact ⟨t, List.mem_cons_of_mem s h, rfl, Or.inl rfl⟩
      | ok n =>
        have hu : (update_student id name age grade (s :: rest)).students =
            applyGrade { applyName s name with age := n } grade :: rest := by
          simp [update_student, hs, hc]
        rw [hu]
        constructor
        · have : (applyGrade { applyName s name with age := n } grade).id = s.id := by
            rw [applyGrade_id]
            exact applyName_id s name
          simp [this]
        · intro t ht
          rcases List.mem_cons.mp ht with h | h
          · refine ⟨s, List.mem_cons_self s rest, ?_, Or.inr ⟨n, rfl, ?_⟩⟩
            · rw [h, applyGrade_id]
              exact applyName_id s name
            · rw [h, applyGrade_age]
          · exact ⟨t, List.mem_cons_of_mem s h, rfl, Or.inl rfl⟩
    · have hu : (update_student id name age grade (s :: rest)).students =
          s :: (update_student id name age grade rest).students := by
        simp [update_student, hs]
      rw [hu]
      obtain ⟨ih1, ih2⟩ := ih
      refine ⟨by simp [ih1], ?_⟩
      intro t ht
      rcases List.mem_cons.mp ht with h | h
      · exact ⟨s, List.mem_cons_self s rest, by rw [h], Or.inl (by rw [h])⟩
      · obtain ⟨t₀, ht₀, hid, hage⟩ := ih2 t h
        exact ⟨t₀, List.mem_cons_of_mem s ht₀, hid, hage⟩

theorem update_student_valid (id : String) (name age grade : Option String)
    (l : List Student) (h : ValidColl l) :
    ValidColl (update_student id name age grade l).students := by
  obtain ⟨hpw, hmem⟩ := h
  obtain ⟨hids, hshape⟩ := update_students_shape id name age grade l
  constructor
  · have hmap : ((l.map Student.id)).Pairwise (· ≠ ·) :=
      List.pairwise_map.mpr hpw
    rw [← hids] at hmap
    exact List.pairwise_map.mp hmap
  · intro t ht
    obtain ⟨t₀, ht₀, hid, hage⟩ := hshape t ht
    refine ⟨hid ▸ (hmem t₀ ht₀).1, ?_⟩
    rcases hage with h | ⟨n, hc, hn⟩
    · rw [h]
      exact (hmem t₀ ht₀).2
    · rw [hn]
      exact checkAge_ok_pos hc

theorem delete_students_sublist (id : String) (l : List Student) :
    (delete_student id l).students.Sublist l := by
  induction l with
  | nil => simp [delete_student]
  | cons s rest ih =>
    by_cases hs : s.id = id
    · simp [delete_student, hs]
    · simp only [delete_student, if_neg hs]
      exact List.Sublist.cons₂ s ih

theorem valid_of_sublist {l l' : List Student} (hsl : l'.Sublist l)
    (h : ValidColl l) : ValidColl l' :=
  ⟨List.Pairwise.sublist hsl h.1, fun s hs => h.2 s (hsl.subset hs)⟩

theorem delete_student_valid (id : String) (l : List Student)
    (h : ValidColl l) : ValidColl (delete_student id l).students :=
  valid_of_sublist (delete_students_sublist id l) h

/-- Claim C1: the empty collection is valid, and every sequence of add,
update and delete operations applied to a valid collection keeps every
record's id non-empty and unique and every age strictly positive. -/
theorem claim_C1 :
    ValidColl [] ∧
    ∀ (ops : List Op) (l : List Student),
      ValidColl l → ValidColl (ops.foldl applyOp l) := by
  refine ⟨⟨List.Pairwise.nil, by simp⟩, ?_⟩
  intro ops
  induction ops with
  | nil => exact fun l h => h
  | cons op rest ih =>
    intro l h
    rw [List.foldl_cons]
    apply ih
    cases op with
    | add id name age grade => exact add_student_valid id name age grade l h
    | update id name age grade => exact update_student_valid id name age grade l h
    | delete id => exact delete_student_valid id l h

/-- Witness for C1: a concrete add/update/delete sequence starting from the
empty collection yields a valid collection. -/
theorem claim_C1_witness :
    ValidColl (([Op.add "s1" "Alice" "7" "A",
                 Op.update "s1" (some "Al") (some "9") none,
                 Op.add "s2" "Bob" "4" "B",
                 Op.delete "s1"] : List Op).foldl applyOp []) :=
  claim_C1.2 _ [] (by decide)

theorem keyLe_trans (key : String) : ∀ a b c : Student,
    keyLe key a b = true → keyLe key b c = true → keyLe key a c = true := by
  intro a b c h1 h2
  unfold keyLe at h1 h2 ⊢
  split_ifs at h1 h2 ⊢ <;>
    · simp only [decide_eq_true_eq] at h1 h2 ⊢
      exact le_trans h1 h2

theorem keyLe_total (key : String) : ∀ a b : Student,
    (keyLe key a b || keyLe key b a) = true := by
  intro a b
  unfold keyLe
  split_ifs <;>
    · simp only [Bool.or_eq_true, decide_eq_true_eq]
      exact le_total _ _

theorem keyEq_le (key : String) {a b c : Student}
    (h1 : keyEq key a c = true) (h2 : keyEq key b c = true) :
    keyLe key a b = true := by
  unfold keyEq at h1 h2
  unfold keyLe
  split_ifs at h1 h2 ⊢ <;>
    · simp only [beq_iff_eq] at h1 h2
      simp only [decide_eq_true_eq]
      rw [h1, h2]

/-- Claim C5: viewing with a recognised sort key reorders the stored
collection into a stable sort by that key — the result is a permutation of
the stored records, sorted under the source's key comparison (`keyLe`:
lexicographic id, case-folded name, numeric age, case-folded grade), records
tying on the key keep their prior relative order — and since the reordering
replaces the stored list, a subsequent view without a sort key returns the
same sorted order. -/
theorem claim_C5 (key : String) (l : List Student)
    (hkey : key = "id" ∨ key = "name" ∨ key = "age" ∨ key = "grade") :
    (view_students (some key) l).Perm l ∧
    List.Pairwise (fun a b => keyLe key a b = true) (view_students (some key) l) ∧
    (∀ s₀, (view_students (some key) l).filter (fun t => keyEq key t s₀) =
      l.filter (fun t => keyEq key t s₀)) ∧
    view_students none (view_students (some key) l) =
      view_students (some key) l := by
  have hview : view_students (some key) l = l.mergeSort (keyLe key) := by
    show (if key = "id" ∨ key = "name" ∨ key = "age" ∨ key = "grade" then
        l.mergeSort (keyLe key) else l) = l.mergeSort (keyLe key)
    rw [if_pos hkey]
  rw [hview]
  refine ⟨List.mergeSort_perm l (keyLe key),
    List.sorted_mergeSort (keyLe_trans key) (keyLe_total key) l, ?_, rfl⟩
  intro s₀
  have hA : (l.filter (fun t => keyEq key t s₀)).Pairwise
      (fun a b => keyLe key a b = true) := by
    apply List.pairwise_of_forall_mem_list
    intro a ha b hb
    exact keyEq_le key (List.mem_filter.mp ha).2 (List.mem_filter.mp hb).2
  have hsub : (l.filter (fun t => keyEq key t s₀)).Sublist
      (l.mergeSort (keyLe key)) :=
    List.sublist_mergeSort (keyLe_trans key) (keyLe_total key) hA
      (List.filter_sublist l)
  have h1 : ((l.filter (fun t => keyEq key t s₀)).filter
        (fun t => keyEq key t s₀)).Sublist
      ((l.mergeSort (keyLe key)).filter (fun t => keyEq key t s₀)) :=
    hsub.filter _
  have h2 : (l.filter (fun t => keyEq key t s₀)).filter
      (fun t => keyEq key t s₀) = l.filter (fun t => keyEq key t s₀) := by
    simp [List.filter_filter]
  rw [h2] at h1
  have hperm : ((l.mergeSort (keyLe key)).filter (fun t => keyEq key t s₀)).Perm
      (l.filter (fun t => keyEq key t s₀)) :=
    (List.mergeSort_perm l (keyLe key)).filter _
  exact (h1.eq_of_length hperm.length_eq.symm).symm

/-- Witness for C5 at a concrete input: sorting `[("s2",30),("s1",20)]` by
age gives a sorted permutation that a subsequent sort-less view repeats. -/
theorem claim_C5_witness :
    (view_students (some "age")
      [⟨"s2", "x", 30, "A"⟩, ⟨"s1", "y", 20, "B"⟩]).Perm
      [⟨"s2", "x", 30, "A"⟩, ⟨"s1", "y", 20, "B"⟩] ∧
    List.Pairwise (fun a b => keyLe "age" a b = true)
      (view_students (some "age") [⟨"s2", "x", 30, "A"⟩, ⟨"s1", "y", 20, "B"⟩]) ∧
    view_students none
        (view_students (some "age") [⟨"s2", "x", 30, "A"⟩, ⟨"s1", "y", 20, "B"⟩]) =
      view_students (some "age") [⟨"s2", "x", 30, "A"⟩, ⟨"s1", "y", 20, "B"⟩] :=
  ⟨(claim_C5 "age" [⟨"s2", "x", 30, "A"⟩, ⟨"s1", "y", 20, "B"⟩]
      (by decide)).1,
   (claim_C5 "age" [⟨"s2", "x", 30, "A"⟩, ⟨"s1", "y", 20, "B"⟩]
      (by decide)).2.1,
   (claim_C5 "age" [⟨"s2", "x", 30, "A"⟩, ⟨"s1", "y", 20, "B"⟩]
      (by decide)).2.2.2⟩

/-- Claim C7: exporting an empty collection shows an error and writes no
file; with records present and a destination chosen, the file holds the
header row followed by one row per record in collection order, and the
progress callback fires once per record with strictly increasing values,
the i-th call (1-based) receiving `(i / N) * 100` and the last `100`. -/
theorem claim_C7 (l : List Student) (path : String) :
    (l = [] → export_to_csv l path = ⟨true, none, []⟩) ∧
    (l ≠ [] → path ≠ "" →
      (export_to_csv l path).errorShown = false ∧
      (export_to_csv l path).rows =
        some (["ID", "Name", "Age", "Grade"] :: l.map csvRow) ∧
      (export_to_csv l path).callbacks.length = l.length ∧
      (export_to_csv l path).callbacks.Pairwise (· < ·) ∧
      (∀ i (h : i < (export_to_csv l path).callbacks.length),
        (export_to_csv l path).callbacks.get ⟨i, h⟩ =
          ((i : ℚ) + 1) / (l.length : ℚ) * 100) ∧
      (export_to_csv l path).callbacks.getLast? = some 100) := by
  constructor
  · intro h
    subst h
    rfl
  · intro hne hpath
    have hu : export_to_csv l path =
        ⟨false, some (["ID", "Name", "Age", "Grade"] :: l.map csvRow),
         (List.range l.length).map
           (fun (i : ℕ) => ((i : ℚ) + 1) / (l.length : ℚ) * 100)⟩ := by
      unfold export_to_csv
      rw [if_neg hne, if_neg hpath]
    have hN : 0 < l.length := List.length_pos.mpr hne
    have hq : (0 : ℚ) < (l.length : ℚ) := by exact_mod_cast hN
    rw [hu]
    refine ⟨rfl, rfl, by simp, ?_, ?_, ?_⟩
    · refine List.pairwise_map.mpr
        (List.Pairwise.imp ?_ (List.pairwise_lt_range l.length))
      intro i j hij
      have h1 : ((i : ℚ) + 1) < ((j : ℚ) + 1) := by
        have : (i : ℚ) < (j : ℚ) := by exact_mod_cast hij
        linarith
      have h2 := (div_lt_div_iff_of_pos_right hq).mpr h1
      exact mul_lt_mul_of_pos_right h2 (by norm_num)
    · intro i h
      simp [List.get_eq_getElem, List.getElem_map, List.getElem_range]
    · obtain ⟨m, hm⟩ : ∃ m, l.length = m + 1 := ⟨l.length - 1, by omega⟩
      rw [hm, List.range_succ, List.map_append, List.map_cons, List.map_nil,
        List.getLast?_concat]
      have h100 : ((m : ℚ) + 1) / (((m + 1 : ℕ)) : ℚ) * 100 = 100 := by
        push_cast
        rw [div_self (by positivity), one_mul]
      rw [h100]

/-- Witness for C7 at concrete inputs: the empty collection fails and writes
nothing; two records yield the header plus two rows with the callback ending
at 100. -/
theorem claim_C7_witness :
    export_to_csv [] "out.csv" = ⟨true, none, []⟩ ∧
    (export_to_csv [⟨"s1", "Al", 7, "A"⟩, ⟨"s2", "Bo", 8, "B"⟩] "out.csv").rows =
      some (["ID", "Name", "Age", "Grade"] ::
        ([⟨"s1", "Al", 7, "A"⟩, ⟨"s2", "Bo", 8, "B"⟩] : List Student).map csvRow) ∧
    (export_to_csv [⟨"s1", "Al", 7, "A"⟩, ⟨"s2", "Bo", 8, "B"⟩]
        "out.csv").callbacks.getLast? = some 100 :=
  ⟨(claim_C7 [] "out.csv").1 rfl,
   ((claim_C7 [⟨"s1", "Al", 7, "A"⟩, ⟨"s2", "Bo", 8, "B"⟩] "out.csv").2
      (by decide) (by decide)).2.1,
   ((claim_C7 [⟨"s1", "Al", 7, "A"⟩, ⟨"s2", "Bo", 8, "B"⟩] "out.csv").2
      (by decide) (by decide)).2.2.2.2.2⟩

end SMS
